import Mathlib

/-!
# Shallow embedding of the `varmgr` variable store and the `expandvars` parser

This file embeds, in Lean 4, the parts of the repository needed to settle the
claims about it:

* `src/varmgr/lib/store_base.py` — `Source`, `Layer`, `StoreManager`
  (`add_sources`, `set_scopes` with its recursive `scope_solver`,
  `set_layer`, `get_ordered_sources`, `get_ordered_layers`, `get_var`,
  `get_value`);
* `src/expandvars/expandvars.py` — `ExpandParser` (`expand`, `expand_var`,
  `escape`, `_expand_modifier_var`, `_expand_advanced`, `_expand_strict`,
  `_expand_offset`, `_expand_length`, `_expand_substitute`,
  `_expand_default`, `getenv`);
* `src/varmgr/lib/store_engine_expandvars.py` — `ExpandVarsEngine`
  (`is_template`, `get_template`) and `ExpandVarsInstance.render_template`;
* `src/varmgr/lib/store_template.py` — `QueryCtl.is_not_circular`,
  `LazyQueryDict._get_item`, `Renderer.render_var`,
  `Renderer.render_var_process`, `RenderingSettings`.

Modelling conventions:

* Python strings are `List Char`; payload values are strings (the claims only
  exercise string-valued variables, and non-string values are returned
  untouched by the template path because `is_template` tests `isinstance(data, str)`).
* Python exceptions are an explicit `Err` value; a raising call returns
  `Except.error`.  State that Python mutates in place (the renderer cache,
  the plain environ dict of `_expand_default`) is threaded explicitly, and is
  preserved on error exactly as Python's exception propagation preserves
  already-performed mutations (monad `RM` below).
* Python `dict`s are association lists preserving insertion order;
  assigning to an existing key keeps its position (`Dict.insert`).
* Unbounded recursion (the expander's mutual recursion, nested renders,
  `scope_solver`) is driven by an explicit fuel; running out of fuel is the
  distinguished error `Err.outOfFuel`, which never arises at the fuels used
  by the concrete theorems below.
* `EXPANDVARS_RECOVER_NULL` is assumed unset (its default), and `os.getpid()`
  is a parameter (`PCtx.pid`); the renderer path never consults it because it
  passes `feat_pid="$$"`, a string.
-/

/-- All exceptions that the embedded code can raise.  Python classes:
`UndefinedVarError`, `AlreadyExistingSourceError`, the two `VarMgrAppError`
shapes raised by `set_scopes`/`scope_solver`, `KeyError` (unknown scope or
key), `ValueError`, `AssertionError`, `UnboundLocalError` (the unbound
`scopes` variable in the two-argument `set_scopes` branch),
`InvalidTemplateVarNameError`, `TemplateRenderingCircularValueError`, the
`ExpandvarsException` subclasses, and `TypeError`/`AttributeError` raised when
the expander calls `dict.get(var, default)` / `dict.update` on a
`LazyQueryDict` which does not support them. -/
inductive Err where
  | undefinedVar (name : List Char)
  | alreadyExistingSource (name : List Char)
  | scopeRecursive (scopeName : List Char) (stack : List (List Char))
  | scopeItemNotFoundRef (itemRef : List Char) (scopeName : List Char)
  | scopeItemNotFoundObj (sourceName : List Char) (scopeName : List Char)
  | sourceNotFound (name : List Char)
  | keyError (key : List Char)
  | valueError
  | assertionError
  | nameError
  | invalidTplVarName
  | circular (key : List Char) (stack : List (List Char))
  | missingClosingBrace (param : List Char)
  | missingEscapedChar (param : List Char)
  | badSubstitution (param : List Char)
  | operandExpected (param : List Char) (token : List Char)
  | negativeSubString (param : List Char) (expr : List Char)
  | parameterNullOrNotSet (param : List Char)
  | unbound (param : List Char)
  | typeError
  | attributeError
  | outOfFuel
  deriving DecidableEq, Repr

/-- The `ExpandvarsException` base class: exactly its subclasses, used by the
`except (ExpandvarsException)` clause of `render_template`. -/
def Err.isExpandvarsException : Err → Bool
  | .missingClosingBrace _ => true
  | .missingEscapedChar _ => true
  | .badSubstitution _ => true
  | .operandExpected _ _ => true
  | .negativeSubString _ _ => true
  | .parameterNullOrNotSet _ => true
  | .unbound _ => true
  | _ => false

instance {ε α : Type} [DecidableEq ε] [DecidableEq α] : DecidableEq (Except ε α) :=
  fun x y =>
    match x, y with
    | .ok a, .ok b => decidable_of_iff (a = b) (by simp)
    | .error e, .error f => decidable_of_iff (e = f) (by simp)
    | .ok _, .error _ => isFalse (by simp)
    | .error _, .ok _ => isFalse (by simp)

/-! ## Insertion-ordered dictionaries (Python `dict`) -/

/-- A Python `dict` keyed by strings: an association list in insertion order. -/
abbrev Dict (α : Type) : Type := List (List Char × α)

namespace Dict

def lookup {α : Type} (d : Dict α) (k : List Char) : Option α :=
  ((List.find? (fun p => p.1 = k) d)).map (·.2)

/-- `k in d`. -/
def mem {α : Type} (d : Dict α) (k : List Char) : Bool :=
  (lookup d k).isSome

/-- `d[k] = v`: replaces in place when `k` is present (Python keeps the key's
original position), otherwise appends. -/
def insert {α : Type} (d : Dict α) (k : List Char) (v : α) : Dict α :=
  if (lookup d k).isSome then
    d.map (fun p => if p.1 = k then (k, v) else p)
  else
    d ++ [(k, v)]

/-- `d.values()` in insertion order. -/
def values {α : Type} (d : Dict α) : List α := d.map (·.2)

end Dict

/-! ## `store_base.py`: `Source`, `Layer`, `StoreManager` -/

/-- `Source(name, level=None, help=None)`. -/
structure Source where
  name : List Char
  level : Option Int
  help : Option (List Char)
  deriving DecidableEq, Repr

/-- `Layer(source, payload, meta)`; payload values are strings (see header). -/
structure Layer where
  source : Source
  payload : Dict (List Char)
  meta : Dict (List Char)
  deriving DecidableEq, Repr

/-- The `StoreManager` state: `layered_store`, `_sources` and `_scopes`
(`_scopes` holds the *resolved* flat source lists produced by `set_scopes`).
The unused legacy fields `store` and `order` are omitted. -/
structure Store where
  layeredStore : Dict Layer
  sources : Dict Source
  scopes : Dict (List Source)
  deriving DecidableEq, Repr

def Store.empty : Store := ⟨[], [], []⟩

/-- The two call shapes of `add_sources` (a bare non-`Source`, non-`list`
argument raises `ValueError`; that shape is unrepresentable here). -/
inductive SourcesArg where
  | one (s : Source)
  | many (l : List Source)
  deriving Repr

/-- `StoreManager.add_sources(args, force=False)`.  Note the list branch
performs no duplicate check and ignores `force`: it writes each source
unconditionally. -/
def addSources (st : Store) (args : SourcesArg) (force : Bool) : Except Err Store :=
  match args with
  | .many l =>
      .ok { st with sources := l.foldl (fun d s => d.insert s.name s) st.sources }
  | .one s =>
      if (st.sources.mem s.name) && !force then
        .error (.alreadyExistingSource s.name)
      else
        .ok { st with sources := st.sources.insert s.name s }

/-- An element of a scope item list as seen by `scope_solver`.  After a
successful `set_scopes`, `self._scopes` holds lists of `Source` objects, and a
later call copies them into `obj_scopes`; `scope_solver` then iterates over
`Source` objects rather than name strings. -/
inductive ScopeItem where
  | ref (name : List Char)
  | srcObj (s : Source)
  deriving DecidableEq, Repr

mutual
/-- The nested output structure built by `scope_solver` (`out.append(source)`
or `out.append(recursive-list)`), flattened afterwards by `flatten`.  `SList`
is the nested list spelled as a mutual inductive so that the flattening
recursion is structural. -/
inductive SEnt where
  | src (s : Source)
  | sub (l : SList)

/-- A nested list level of `scope_solver` output. -/
inductive SList where
  | nil
  | cons (e : SEnt) (l : SList)
end

mutual
/-- `flatten` (from `core.py`) applied to one entry of `scope_solver`'s
output: a `Source` is not iterable and is yielded, a list is recursed into. -/
def flattenE : SEnt → List Source
  | .src s => [s]
  | .sub l => flattenL l

/-- `list(flatten(...))` over the nested output of `scope_solver`. -/
def flattenL : SList → List Source
  | .nil => []
  | .cons e r => flattenE e ++ flattenL r
end

/-- `scope_solver(scope_name, scope_items, scopes, sources, _seen)`.
`_seen` is a single Python list mutated in place and shared across the whole
recursion of one top-level scope; it is threaded here as explicit state and
returned updated.  `scopes` is the dict used for scope lookups: in the
one-argument call shape of `set_scopes` this is `args[0]` — the *new* scope
dict only, not the merged `obj_scopes`.  The `for item_ref in scope_items`
loop and the recursive descent both consume fuel (one unit per processed
item or descent), so the recursion is structural on the fuel. -/
def scopeSolver (sources : Dict Source) (scopes : Dict (List ScopeItem)) :
    Nat → List Char → List ScopeItem → List (List Char) →
    Except Err (SList × List (List Char))
  | 0, _, _, _ => .error .outOfFuel
  | _ + 1, _, [], seen => .ok (.nil, seen)
  | fuel + 1, scopeName, .ref item :: rest, seen =>
      match sources.lookup item with
      | some src =>
          -- `item_ref in sources`: direct resolve
          match scopeSolver sources scopes fuel scopeName rest seen with
          | .ok (out, seen') => .ok (.cons (.src src) out, seen')
          | .error e => .error e
      | none =>
          match scopes.lookup item with
          | some items' =>
              -- `item_ref in scopes`: check for recursion loops
              if item ∈ seen then
                .error (.scopeRecursive scopeName (scopeName :: seen))
              else
                match scopeSolver sources scopes fuel item items' (seen ++ [item]) with
                | .ok (child, seen') =>
                    match scopeSolver sources scopes fuel scopeName rest seen' with
                    | .ok (out, seen'') => .ok (.cons (.sub child) out, seen'')
                    | .error e => .error e
                | .error e => .error e
          | none => .error (.scopeItemNotFoundRef item scopeName)
  | _ + 1, scopeName, .srcObj s :: _, _ =>
      -- A `Source` object from a previously resolved scope is neither a key of
      -- `sources` nor of `scopes` (both are keyed by strings), so the final
      -- `else` branch raises "Item ... not found in sources or scopes".
      .error (.scopeItemNotFoundObj s.name scopeName)

/-- The two representable call shapes of `set_scopes` (any other arity raises
`ValueError` before touching the store). -/
inductive ScopesArg where
  | dict (d : Dict (List (List Char)))
  | pair (name : List Char) (items : List (List Char))
  deriving Repr

/-- The `for scope_name, items_list in obj_scopes.items()` loop of
`set_scopes`, accumulating `_out` in loop order (each scope is resolved with
a fresh `_seen=None`). -/
def setScopesLoop (sources : Dict Source) (scopes : Dict (List ScopeItem))
    (fuel : Nat) (acc : Dict (List Source)) :
    List (List Char × List ScopeItem) → Except Err (Dict (List Source))
  | [] => .ok acc
  | (scopeName, itemsList) :: rest =>
      match scopeSolver sources scopes fuel scopeName itemsList [] with
      | .ok (out, _) =>
          setScopesLoop sources scopes fuel (acc.insert scopeName (flattenL out)) rest
      | .error e => .error e

/-- `StoreManager.set_scopes(*args)`.  `obj_scopes = dict(self._scopes)` is a
copy merged with the new argument; previously resolved entries are lists of
`Source` objects (`ScopeItem.srcObj`).  `self._scopes` is assigned only after
every scope resolved, so an exception leaves the store untouched.

In the two-argument shape the local variable `scopes` is never assigned, and
its use inside the registration loop raises `UnboundLocalError` on the first
iteration; `obj_scopes` always contains at least the pair just added, so the
loop always runs. -/
def setScopes (st : Store) (args : ScopesArg) : Except Err Store :=
  match args with
  | .pair _ _ => .error .nameError
  | .dict d =>
      -- `scopes = args[0]`: the dict passed to `scope_solver` for lookups
      let newScopes : Dict (List ScopeItem) := d.map (fun p => (p.1, p.2.map .ref))
      -- `obj_scopes = dict(self._scopes)` (resolved `Source` lists) updated
      -- with the new raw dict
      let objScopes : Dict (List ScopeItem) :=
        d.foldl (fun (acc : Dict (List ScopeItem)) p => acc.insert p.1 (p.2.map .ref))
          (st.scopes.map (fun p => (p.1, (p.2.map .srcObj : List ScopeItem))))
      let fuel := objScopes.foldl (fun a p => a + p.2.length + 1)
        (newScopes.foldl (fun a p => a + p.2.length + 1) 2)
      match setScopesLoop st.sources newScopes fuel [] objScopes with
      | .ok out => .ok { st with scopes := out }
      | .error e => .error e

/-- `StoreManager.set_layer(source_name, dataset, **kwargs)`. -/
def setLayer (st : Store) (sourceName : List Char) (dataset : Dict (List Char))
    (meta : Dict (List Char)) : Except Err Store :=
  match st.sources.lookup sourceName with
  | none => .error (.sourceNotFound sourceName)
  | some src =>
      .ok { st with layeredStore := st.layeredStore.insert sourceName ⟨src, dataset, meta⟩ }

/-- `DEFAULT_LEVEL = 500`; `StoreManager.middle_level`. -/
def middleLevel : Int := 500

/-- The `lvl_sorter` key of `get_ordered_sources`. -/
def lvlSorter (s : Source) : Int := s.level.getD middleLevel

/-- Stable insertion of one element into a sorted list: placed after all
elements with key `≤` its key, as Python's stable `sorted` orders ties. -/
def insSorted (x : Source) : List Source → List Source
  | [] => [x]
  | y :: r => if lvlSorter y ≤ lvlSorter x then y :: insSorted x r else x :: y :: r

/-- Stable sort by `lvl_sorter` (Python `sorted` is stable). -/
def stableSortByLevel (l : List Source) : List Source :=
  l.foldl (fun acc x => insSorted x acc) []

/-- `StoreManager.get_ordered_sources(scope=None)`: no scope sorts all sources
by level; a scope name indexes `self._scopes` (raising `KeyError` when
absent). -/
def getOrderedSourcesE (st : Store) (scope : Option (List Char)) :
    Except Err (List Source) :=
  match scope with
  | none => .ok (stableSortByLevel st.sources.values)
  | some s =>
      match st.scopes.lookup s with
      | some l => .ok l
      | none => .error (.keyError s)

/-- `StoreManager.get_ordered_layers(scope=None)`: keep, in source order, the
layers of the sources present in `layered_store`. -/
def getOrderedLayersE (st : Store) (scope : Option (List Char)) :
    Except Err (List Layer) :=
  match getOrderedSourcesE st scope with
  | .ok srcs => .ok (srcs.filterMap (fun s => st.layeredStore.lookup s.name))
  | .error e => .error e

/-- The `for layer in self.get_ordered_layers(...)` loop of `get_var`
(`debug=False` path): the first layer whose payload contains the name. -/
def firstLayerWith (name : List Char) : List Layer → Except Err Layer
  | [] => .error (.undefinedVar name)
  | l :: rest =>
      if l.payload.mem name then .ok l else firstLayerWith name rest

/-- `StoreManager.get_var(name, scope=None)` (`debug=False`). -/
def getVarE (st : Store) (name : List Char) (scope : Option (List Char)) :
    Except Err Layer :=
  match getOrderedLayersE st scope with
  | .ok layers => firstLayerWith name layers
  | .error e => .error e

/-- `StoreManager.get_value(name, scope=None)`:
`self.get_var(name, scope=scope).payload[name]`.  The inner `KeyError` branch
is unreachable because `get_var` only returns layers containing `name`. -/
def getValueE (st : Store) (name : List Char) (scope : Option (List Char)) :
    Except Err (List Char) :=
  match getVarE st name scope with
  | .ok layer =>
      match layer.payload.lookup name with
      | some v => .ok v
      | none => .error (.keyError name)
  | .error e => .error e

/-! ## The `RM` monad: state threaded through exceptions

Python exceptions unwind the stack but keep every mutation already performed
(the renderer cache, the environ dict), so a computation returns both an
`Except` outcome and the state at that point. -/

/-- State-threading exception monad. -/
def RM (σ α : Type) : Type := σ → Except Err α × σ

instance : Monad (RM σ) where
  pure a := fun s => (.ok a, s)
  bind m f := fun s =>
    match m s with
    | (.ok a, s') => f a s'
    | (.error e, s') => (.error e, s')

/-- `raise e`. -/
def throwRM (e : Err) : RM σ α := fun s => (.error e, s)

/-- `try ... except`: the handler sees the state at raise time. -/
def tryCatchRM (m : RM σ α) (h : Err → RM σ α) : RM σ α := fun s =>
  match m s with
  | (.ok a, s') => (.ok a, s')
  | (.error e, s') => h e s'

/-! ## `expandvars.py`: `ExpandParser` -/

/-- `feat_pid`: `True` enables `os.getpid()` expansion, a string is returned
verbatim, anything else (e.g. `False`) disables the `$$` special case. -/
inductive FeatPid where
  | enabled
  | disabled
  | str (s : List Char)
  deriving Repr

/-- The `ExpandParser` construction parameters.  `var_symbol` is modelled as a
single character (the repository only ever uses `"$"`); `pid` is the value
`os.getpid()` would return, consulted only when `featPid = .enabled`. -/
structure PCtx where
  nounset : Bool
  varSymbol : Char
  featPid : FeatPid
  pid : Nat

/-- The operations the parser performs on its `environ` mapping.  For a plain
dict they are ordinary lookups/updates; for the renderer's `LazyQueryDict`,
`get` triggers a recursive render, `getD` (the two-argument
`environ.get(var, "")` of `_expand_strict`) raises `TypeError` because
`LazyQueryDict.get` takes a single argument, and `update`
(`environ.update(...)` of `_expand_default`) raises `AttributeError` because
`Mapping` has no `update`. -/
structure EnvOps (σ : Type) where
  get : List Char → RM σ (Option (List Char))
  getD : List Char → List Char → RM σ (List Char)
  update : List Char → List Char → RM σ Unit

/-- `_valid_char(char)`: `char.isalnum() or char == "_"` (ASCII reading of
`isalnum`; the repository's variable names are ASCII). -/
def validCh (c : Char) : Bool := c.isAlphanum || c = '_'

/-- `ExpandParser.getenv(var, indirect, default)`.  `EXPANDVARS_RECOVER_NULL`
is assumed unset. -/
def pGetenv (ops : EnvOps σ) (ctx : PCtx) (var : List Char) (indirect : Bool)
    (default : Option (List Char)) : RM σ (List Char) :=
  ops.get var >>= fun val =>
  -- if val is not None and indirect: val = environ.get(val)
  (match val, indirect with
   | some v, true => ops.get v
   | v, _ => pure v) >>= fun val =>
  match val with
  | some (c :: cs) => pure (c :: cs)       -- if val: return val
  | _ =>
      match default with
      | some d => pure d                   -- if default is not None
      | none => if ctx.nounset then throwRM (.unbound var) else pure []

/-- `_expand_strict(var, modifier)`: `environ.get(var, "")`, raising
`ParameterNullOrNotSet` on a falsy result (`RECOVER_NULL` unset). -/
def pStrict (ops : EnvOps σ) (var _modifier : List Char) : RM σ (List Char) := do
  let v ← ops.getD var []
  match v with
  | c :: cs => pure (c :: cs)
  | [] => throwRM (.parameterNullOrNotSet var)

/-- `_expand_substitute(var, modifier)`. -/
def pSubstitute (ops : EnvOps σ) (var modifier : List Char) : RM σ (List Char) := do
  let v ← ops.get var
  match v with
  | some (_ :: _) => pure modifier
  | _ => pure []

/-- `_expand_default(var, modifier, set_, indirect)`. -/
def pDefault (ops : EnvOps σ) (ctx : PCtx) (var modifier : List Char)
    (set_ indirect : Bool) : RM σ (List Char) :=
  (if set_ then
    ops.get var >>= fun v =>
    match v with
    | some (_ :: _) => pure ()
    | _ => ops.update var modifier
   else pure ()) >>= fun _ =>
  pGetenv ops ctx var indirect (some modifier)

/-- `str.strip()` (both-ends whitespace strip). -/
def pyStrip (l : List Char) : List Char :=
  ((l.dropWhile Char.isWhitespace).reverse.dropWhile Char.isWhitespace).reverse

/-- Digit-string to `Nat`. -/
def digitsToNat? : List Char → Option Nat
  | [] => none
  | ds =>
      if ds.all Char.isDigit then
        some (ds.foldl (fun a c => a * 10 + (c.toNat - '0'.toNat)) 0)
      else none

/-- `int(s)` on an already-stripped string: optional sign then digits.
(Python additionally accepts `_` digit grouping; never exercised here.) -/
def pyParseIntCore : List Char → Option Int
  | '+' :: ds => (digitsToNat? ds).map Int.ofNat
  | '-' :: ds => (digitsToNat? ds).map (fun n => -(Int.ofNat n))
  | ds => (digitsToNat? ds).map Int.ofNat

/-- The shared `offset` computation of `_expand_offset`: `0` when the string
is empty or not `_isint`, else `int(...)` (`int` strips whitespace itself,
which subsumes the `.strip()` on the no-colon branch). -/
def parseOffset (l : List Char) : Int :=
  let t := pyStrip l
  if t = [] then 0 else (pyParseIntCore t).getD 0

/-- Python slice index normalisation: negative indices count from the end,
results are clamped to `[0, len]`. -/
def pyIdx (len : Nat) (i : Int) : Nat :=
  if i < 0 then ((len : Int) + i).toNat else min i.toNat len

/-- `s[i:]`. -/
def pySliceFrom (l : List Char) (i : Int) : List Char := l.drop (pyIdx l.length i)

/-- `s[a:b]`. -/
def pySlice (l : List Char) (a b : Int) : List Char :=
  (l.take (pyIdx l.length b)).drop (pyIdx l.length a)

/-- `_expand_length(var, modifier, offset)`. -/
def pLength (ops : EnvOps σ) (ctx : PCtx) (var modifier : List Char)
    (offset : Int) : RM σ (List Char) :=
  let lengthStr := pyStrip modifier
  let fin : Option Int → RM σ (List Char) := fun lengthOpt => do
    let width : Int := match lengthOpt with | none => 0 | some len => offset + len
    let v ← pGetenv ops ctx var false none
    pure (pySlice v offset width)
  if lengthStr = [] then fin none
  else
    match pyParseIntCore lengthStr with
    | none =>
        if lengthStr.all validCh then fin none
        else throwRM (.operandExpected var lengthStr)
    | some len =>
        if len < 0 then throwRM (.negativeSubString var lengthStr)
        else fin (some len)

/-- The `for c in modifier` loop of `_expand_offset`; on `:` the tail goes to
`_expand_length`, otherwise `getenv(var)[offset:]`. -/
def offGo (ops : EnvOps σ) (ctx : PCtx) (var : List Char) (buff : List Char) :
    List Char → RM σ (List Char)
  | c :: cs =>
      if c = ':' then pLength ops ctx var cs (parseOffset buff)
      else offGo ops ctx var (buff ++ [c]) cs
  | [] => do
      let v ← pGetenv ops ctx var false none
      pure (pySliceFrom v (parseOffset buff))

/-- `_expand_offset(var, modifier)`. -/
def pOffset (ops : EnvOps σ) (ctx : PCtx) (var modifier : List Char) :
    RM σ (List Char) :=
  offGo ops ctx var [] modifier

/-- The mutually recursive entry points of `ExpandParser`, dispatched by
`pRun` below on decreasing fuel. -/
inductive PCall where
  | expand (s : List Char)
  | expandVar (s : List Char)
  | escape (s : List Char)
  | modifierVar (s : List Char)
  | advanced (var : List Char) (s : List Char) (indirect : Bool)

/-- The re-raise performed by `expand`'s `except` clauses:
`MissingExcapedChar`, `MissingClosingBrace` and `BadSubstitution` are
re-raised with the whole input as parameter; anything else passes through. -/
def retagErr (input : List Char) : Err → Err
  | .missingEscapedChar _ => .missingEscapedChar input
  | .missingClosingBrace _ => .missingClosingBrace input
  | .badSubstitution _ => .badSubstitution input
  | e => e

/-- The `try`/`except` wrapper of `expand` around its scanning loop. -/
def retagRM (input : List Char) (m : RM σ (List Char)) : RM σ (List Char) := fun s =>
  match m s with
  | (.error e, s') => (.error (retagErr input e), s')
  | r => r

/-- The `for c in vars_` loop of `expand`: the pending `buff` prefix becomes
the `c :: ...` result prefix. -/
def expandGo (recurse : PCall → RM σ (List Char)) (vsym : Char) :
    List Char → RM σ (List Char)
  | [] => pure []
  | c :: cs =>
      if c = vsym then recurse (.expandVar cs)
      else if c = '\\' then recurse (.escape cs)
      else do
        let r ← expandGo recurse vsym cs
        pure (c :: r)

/-- `ExpandParser.escape(vars_)`. -/
def escapeBody (recurse : PCall → RM σ (List Char)) (vsym : Char) :
    List Char → RM σ (List Char)
  | [] => throwRM (.missingEscapedChar [])
  | [c] => pure [c]
  | c0 :: c1 :: rest =>
      if c0 = vsym then do
        let r ← recurse (.expand (c1 :: rest))
        pure (c0 :: r)
      else if c0 = '\\' then
        if c1 = vsym then do
          let r ← recurse (.expand (c1 :: rest))
          pure ('\\' :: r)
        else if c1 = '\\' then do
          let r ← recurse (.escape rest)
          pure ('\\' :: r)
        else do
          let r ← recurse (.expand (c1 :: rest))
          pure ('\\' :: c0 :: r)
      else do
        let r ← recurse (.expand (c1 :: rest))
        pure ('\\' :: c0 :: r)

/-- `times = 2` plus the count of consecutive `var_symbol`s in `vars_[1:]`. -/
def countLeading (c : Char) : List Char → Nat
  | [] => 0
  | x :: xs => if x = c then countLeading c xs + 1 else 0

/-- The `for c in vars_` name-collecting loop of `expand_var` (`$*` support);
`buff` empty can only happen on the first character, where `vars_[n:]` is the
whole remaining input. -/
def buffGo (ops : EnvOps σ) (ctx : PCtx) (recurse : PCall → RM σ (List Char))
    (buff : List Char) : List Char → RM σ (List Char)
  | [] => pGetenv ops ctx buff false none
  | c :: cs =>
      if validCh c then buffGo ops ctx recurse (buff ++ [c]) cs
      else if buff.length > 0 then do
        let v ← pGetenv ops ctx buff false none
        let r ← recurse (.expand (c :: cs))
        pure (v ++ r)
      else do
        let r ← recurse (.expand (c :: cs))
        pure (ctx.varSymbol :: r)

/-- `ExpandParser.expand_var(vars_)`. -/
def expandVarBody (ops : EnvOps σ) (ctx : PCtx)
    (recurse : PCall → RM σ (List Char)) : List Char → RM σ (List Char)
  | [] => pure [ctx.varSymbol]
  | c0 :: rest =>
      if c0 = '\\' then do
        let r ← recurse (.escape rest)
        pure (ctx.varSymbol :: r)
      else if c0 = ctx.varSymbol then
        -- Count how many $ symbols appear in sequence
        let times := 2 + countLeading ctx.varSymbol rest
        if times = 2 then
          match ctx.featPid with
          | .enabled => do
              let r ← recurse (.expand rest)
              pure ((Nat.repr ctx.pid).data ++ r)
          | .str s => do
              let r ← recurse (.expand rest)
              pure (s ++ r)
          | .disabled => do
              let r ← recurse (.expand ((c0 :: rest).drop (times - 1)))
              pure (List.replicate times ctx.varSymbol ++ r)
        else do
          let r ← recurse (.expand ((c0 :: rest).drop (times - 1)))
          pure (List.replicate times ctx.varSymbol ++ r)
      else if c0 = '{' then recurse (.modifierVar rest)
      else buffGo ops ctx recurse [] (c0 :: rest)

/-- The `for c in vars_` loop of `_expand_modifier_var`. -/
def modGo (ops : EnvOps σ) (ctx : PCtx) (recurse : PCall → RM σ (List Char))
    (indirect : Bool) (buff : List Char) : List Char → RM σ (List Char)
  | [] => throwRM (.missingClosingBrace buff)
  | c :: cs =>
      if validCh c then modGo ops ctx recurse indirect (buff ++ [c]) cs
      else if c = '}' then do
        let v ← pGetenv ops ctx buff indirect none
        let r ← recurse (.expand cs)
        pure (v ++ r)
      else if c = ':' then recurse (.advanced buff cs indirect)
      else recurse (.advanced buff (c :: cs) indirect)

/-- `ExpandParser._expand_modifier_var(vars_)`. -/
def modifierVarBody (ops : EnvOps σ) (ctx : PCtx)
    (recurse : PCall → RM σ (List Char)) (vars_ : List Char) : RM σ (List Char) :=
  if vars_.length ≤ 1 then throwRM (.badSubstitution vars_)
  else
    let p : Bool × List Char :=
      match vars_ with
      | '!' :: t => (true, t)
      | v => (false, v)
    modGo ops ctx recurse p.1 [] p.2

/-- The modifier-collecting loop of `_expand_advanced` (brace depth
counting); `none` models falling off the string with `depth != 0`. -/
def collectModifier : List Char → Nat → List Char → Option (List Char × List Char)
  | [], _, _ => none
  | c :: cs, depth, acc =>
      if c = '{' then collectModifier cs (depth + 1) (acc ++ [c])
      else if c = '}' then
        if depth = 1 then some (acc, cs)
        else collectModifier cs (depth - 1) (acc ++ [c])
      else collectModifier cs depth (acc ++ [c])

/-- `ExpandParser._expand_advanced(var, vars_, indirect)`. -/
def advancedBody (ops : EnvOps σ) (ctx : PCtx)
    (recurse : PCall → RM σ (List Char)) (var vars_ : List Char)
    (indirect : Bool) : RM σ (List Char) :=
  if vars_ = [] then throwRM (.missingClosingBrace var)
  else
    match collectModifier vars_ 1 [] with
    | none => throwRM (.missingClosingBrace var)
    | some (modRaw, rest) => do
        let modifier ← recurse (.expand modRaw)
        match modifier with
        | [] => throwRM (.badSubstitution var)
        | '-' :: m => do
            let a ← pDefault ops ctx var m false indirect
            let r ← recurse (.expand rest)
            pure (a ++ r)
        | '=' :: m => do
            let a ← pDefault ops ctx var m true indirect
            let r ← recurse (.expand rest)
            pure (a ++ r)
        | '+' :: m => do
            let a ← pSubstitute ops var m
            let r ← recurse (.expand rest)
            pure (a ++ r)
        | '?' :: m => do
            let a ← pStrict ops var m
            let r ← recurse (.expand rest)
            pure (a ++ r)
        | mfull => do
            let a ← pOffset ops ctx var mfull
            let r ← recurse (.expand rest)
            pure (a ++ r)

/-- The mutual recursion of `ExpandParser`, on explicit fuel (each
cross-function call consumes one unit). -/
def pRun (ops : EnvOps σ) (ctx : PCtx) : Nat → PCall → RM σ (List Char)
  | 0, _ => throwRM .outOfFuel
  | fuel + 1, .expand s => retagRM s (expandGo (pRun ops ctx fuel) ctx.varSymbol s)
  | fuel + 1, .expandVar s => expandVarBody ops ctx (pRun ops ctx fuel) s
  | fuel + 1, .escape s => escapeBody (pRun ops ctx fuel) ctx.varSymbol s
  | fuel + 1, .modifierVar s => modifierVarBody ops ctx (pRun ops ctx fuel) s
  | fuel + 1, .advanced var s ind => advancedBody ops ctx (pRun ops ctx fuel) var s ind

/-- A plain Python dict as `environ`. -/
def dictOps : EnvOps (Dict (List Char)) where
  get := fun k s => (.ok (Dict.lookup s k), s)
  getD := fun k d s => (.ok ((Dict.lookup s k).getD d), s)
  update := fun k v s => (.ok (), Dict.insert s k v)

/-- The module-level `expand(vars_, nounset, environ, var_symbol, **kwargs)`
with a plain dict environ: builds an `ExpandParser` and runs `expand`. -/
def expandTop (environ : Dict (List Char)) (nounset : Bool) (varSymbol : Char)
    (featPid : FeatPid) (pid : Nat) (fuel : Nat) (s : List Char) :
    Except Err (List Char) × Dict (List Char) :=
  pRun dictOps ⟨nounset, varSymbol, featPid, pid⟩ fuel (.expand s) environ

/-! ## `store_engine_expandvars.py`: engine and template instance -/

/-- The attributes `ExpandVarsEngine.__init__` sets (`var_symbol = "$"`,
`strict = False`); kept abstract so theorems can state that `get_template`
ignores them. -/
structure EngAttrs where
  varSymbol : Char := '$'
  strict : Bool := false

/-- `ExpandVarsEngine.is_template(data)`: `self.var_symbol in data` (the
non-string early return does not arise for string payloads). -/
def isTemplate (e : EngAttrs) (data : List Char) : Bool := data.contains e.varSymbol

/-- An `ExpandVarsInstance`: the wrapped value plus the `strict`/`symbol`
construction parameters. -/
structure TplInstance where
  value : List Char
  strict : Bool
  symbol : Char
  deriving Repr

/-- `ExpandVarsEngine.get_template(value)`: constructs
`ExpandVarsInstance(value, engine=self)`, so `strict` and `symbol` take their
defaults `False` and `"$"` whatever the engine's own attributes say. -/
def getTemplate (_e : EngAttrs) (value : List Char) : TplInstance :=
  ⟨value, false, '$'⟩

/-- `ExpandVarsInstance.render_template(dict_vars)`: runs
`ExpandParser(environ=dict_vars, nounset=self.strict, feat_pid="$$",
var_symbol=self.symbol).expand(self._value)`; any `ExpandvarsException` or
`InvalidTemplateVarNameError` is swallowed and the original value returned. -/
def renderTemplate (σ : Type) (inst : TplInstance) (ops : EnvOps σ) (pid : Nat)
    (fuel : Nat) : RM σ (List Char) :=
  tryCatchRM
    (pRun ops ⟨inst.strict, inst.symbol, .str ['$', '$'], pid⟩ fuel (.expand inst.value))
    (fun e =>
      if e.isExpandvarsException then pure inst.value
      else if e = .invalidTplVarName then pure inst.value
      else throwRM e)

/-! ## `store_template.py`: settings, `QueryCtl`, `LazyQueryDict`, `Renderer` -/

/-- One `on_*_error` setting: `Exception` (raise), a callable, or a constant
replacement value. -/
inductive Handler where
  | raise
  | callable (f : List Char → List Char)
  | const (s : List Char)

/-- `RenderingSettings`.  `debug` only changes the shape of the returned
tuple (value vs `(value, report)`), immediately unpacked again by
`LazyQueryDict._get_item`; the report dict is bookkeeping metadata and is not
modelled, so `debug` has no observable effect here. -/
structure RSettings where
  onTemplatingError : Handler
  onUndefinedError : Handler
  onUndefinedTemplateError : Handler
  template : Bool
  debug : Bool
  cache : Bool

/-- The defaults `render_var` installs when called without settings
(`settings or {...}` with `debug=False, cache=True, template=True`). -/
def defaultSettings : RSettings where
  onTemplatingError := .callable id
  onUndefinedError := .raise
  onUndefinedTemplateError := .callable id
  template := true
  debug := false
  cache := true

/-- The renderer's mutable state: `Renderer._cache`. -/
structure RState where
  cache : Dict (List Char)
  deriving DecidableEq, Repr

/-- The `while curr_parent is not None` walk of `is_not_circular`: each
ancestor key is appended to `key_stack` and compared with `key`; the first
match yields the stack. -/
def circWalk (key : List Char) (stack : List (List Char)) :
    List (List Char) → Option (List (List Char))
  | [] => none
  | p :: ps =>
      if p = key then some (stack ++ [p]) else circWalk key (stack ++ [p]) ps

/-- `QueryCtl.is_not_circular()` with `raise_error=True`: the `QueryCtl`
parent chain is the list `self.key_ctl :: ancestor keys`; a root ctl
(`parent is None`) passes; otherwise `key_stack = [key]` grows along the
parent walk until it meets `self.key_ctl` again, raising
`TemplateRenderingCircularValueError` with that stack. -/
def isNotCircularRM (chain : List (List Char)) : RM RState Unit :=
  match chain with
  | [] => pure ()
  | _ :: [] => pure ()
  | selfK :: parents =>
      match circWalk selfK [selfK] parents with
      | some stack => throwRM (.circular selfK stack)
      | none => pure ()

/-- The `except UndefinedVarError` arm of `render_var_process`: dispatch on
`settings.on_undefined_error` (callables receive `var_name`). -/
def runUndefHandler (h : Handler) (varName : List Char) : RM RState (List Char) :=
  match h with
  | .raise => throwRM (.undefinedVar varName)
  | .callable f => pure (f varName)
  | .const s => pure s

/-- `LazyQueryDict` wired as the parser's environ: `get` is
`LazyQueryDict.get → _get_item` (empty-name check, `is_not_circular` on the
current `QueryCtl`, then a child `render_var` with the current ctl as
parent); the two-argument `get` and `update` do not exist on a
`LazyQueryDict`. -/
def lazyOps (recurseRender : List (List Char) → List Char → RM RState (List Char))
    (chain : List (List Char)) : EnvOps RState where
  get := fun k =>
    if k.isEmpty then throwRM .invalidTplVarName
    else do
      isNotCircularRM chain
      let v ← recurseRender chain k
      pure (some v)
  getD := fun _ _ => throwRM .typeError
  update := fun _ _ => throwRM .attributeError

/-- `Renderer.render_var`'s step 5: `self._cache[var_name] = value`. -/
def cacheSave (doCache : Bool) (varName value : List Char) : RM RState Unit :=
  fun st =>
    (.ok (), if doCache then { st with cache := st.cache.insert varName value } else st)

/-- The context a `Renderer` carries: the store, the scope it was built for,
its freshly constructed engine's attributes, the settings of the root
`QueryCtl` (children inherit them), and the process pid (never consulted:
`feat_pid` is the string `"$$"`). -/
structure RCtx where
  store : Store
  scope : Option (List Char)
  engine : EngAttrs
  settings : RSettings
  pid : Nat

/-- `Renderer.render_var_process(var_name)`: fetch the value (routing
`UndefinedVarError` through `on_undefined_error`), then — when templating is
enabled and the value looks like a template to the engine — run the template
instance against a `LazyQueryDict`. -/
def renderVarProcess (ctx : RCtx)
    (recurseRender : List (List Char) → List Char → RM RState (List Char))
    (parserFuel : Nat) (chain : List (List Char)) (varName : List Char) :
    RM RState (List Char) :=
  (match getValueE ctx.store varName ctx.scope with
   | .ok v => pure v
   | .error (.undefinedVar _) => runUndefHandler ctx.settings.onUndefinedError varName
   | .error e => throwRM e) >>= fun value =>
  if !ctx.settings.template then pure value
  else if !(isTemplate ctx.engine value) then pure value
  else
    renderTemplate RState (getTemplate ctx.engine value)
      (lazyOps recurseRender chain) ctx.pid parserFuel

/-- `Renderer.render_var(var_name, _parent_queryctl=...)`: the `assert
var_name` guard, the cache lookup, `render_var_process`, and the cache save.
`parents` is the ancestor `QueryCtl` key chain (empty at the top level); the
child renders triggered by the expander receive `varName :: parents`. -/
def renderVar (ctx : RCtx) : Nat → List (List Char) → List Char → RM RState (List Char)
  | 0, _, _ => throwRM .outOfFuel
  | fuel + 1, parents, varName =>
      if varName.isEmpty then throwRM .assertionError
      else
        fun st =>
          match (if ctx.settings.cache then st.cache.lookup varName else none) with
          | some v => (.ok v, st)
          | none =>
              (do
                let value ←
                  renderVarProcess ctx (renderVar ctx fuel) fuel (varName :: parents) varName
                cacheSave ctx.settings.cache varName value
                pure value) st

/-- A fresh `Renderer(store, scope)` followed by `render_var(var_name,
settings=...)`: the constructor's `get_ordered_sources` call re-raises an
unknown scope's `KeyError`; a fresh renderer starts with an empty cache and a
fresh default-attribute engine; `settings=None` selects the documented
defaults. -/
def renderEntry (store : Store) (scope : Option (List Char))
    (settings : Option RSettings) (varName : List Char) (fuel : Nat) :
    Except Err (List Char) × RState :=
  match getOrderedSourcesE store scope with
  | .error e => (.error e, ⟨[]⟩)
  | .ok _ =>
      renderVar ⟨store, scope, {}, settings.getD defaultSettings, 0⟩ fuel [] varName ⟨[]⟩

/-! ## Concrete fixtures and claim theorems -/

/-- String literal to the `List Char` representation used throughout. -/
def chs (s : String) : List Char := s.data

/-- The claim C1 store: three level-300 sources, the三-level scope chain, and
the three data layers, built through the embedded `StoreManager` API. -/
def c1StoreE : Except Err Store := do
  let s ← addSources Store.empty (.many [
    ⟨chs "app_cli", some 300, none⟩,
    ⟨chs "project_env", some 300, none⟩,
    ⟨chs "stack_env", some 300, none⟩]) false
  let s ← setScopes s (.dict [
    (chs "scope_app", [chs "app_cli"]),
    (chs "scope_project", [chs "project_env", chs "scope_app"]),
    (chs "scope_stack", [chs "stack_env", chs "scope_project"])])
  let s ← setLayer s (chs "app_cli") [(chs "app_name", chs "dataset1")] []
  let s ← setLayer s (chs "project_env")
    [(chs "project_name", chs "project1+${stack_name}")] []
  let s ← setLayer s (chs "stack_env")
    [(chs "stack_name", chs "dataset3"),
     (chs "stack_fname", chs "${project_name}_${stack_name}")] []
  pure s

/-- `render("stack_fname", scope="scope_stack")` with default settings on the
C1 store. -/
def c1Result : Except Err (List Char) :=
  match c1StoreE with
  | .ok s => (renderEntry s (some (chs "scope_stack")) none (chs "stack_fname") 50).1
  | .error e => .error e

/-- C1: with sources `app_cli`, `project_env`, `stack_env` (level 300 each),
scopes `scope_app=[app_cli]`, `scope_project=[project_env, scope_app]`,
`scope_stack=[stack_env, scope_project]` and the three layers of the claim,
rendering `stack_fname` in `scope_stack` with default settings returns
exactly `"project1+dataset3_dataset3"`. -/
theorem C1_template_chain :
    c1Result = .ok (chs "project1+dataset3_dataset3") := by
  decide

/-- Unfolding lemma: the `get_var` scanning loop agrees with "the first layer
whose payload contains the name". -/
theorem firstLayerWith_spec (name : List Char) (ls : List Layer) :
    (match ls.find? (fun l => l.payload.mem name) with
     | some l => firstLayerWith name ls = .ok l ∧ l.payload.mem name = true
     | none => firstLayerWith name ls = .error (.undefinedVar name)) := by
  induction ls with
  | nil => simp [firstLayerWith]
  | cons l rest ih =>
      by_cases hm : l.payload.mem name
      · simp [List.find?_cons, hm, firstLayerWith]
      · simp only [List.find?_cons, hm, Bool.false_eq_true, if_false]
        simp only [firstLayerWith, hm, Bool.false_eq_true, if_false]
        exact ih

/-- C2: for every store, scope (`none` included) and key, provided the scope
resolves (`get_ordered_layers` succeeds with `ls`), `get_value` returns the
value stored under the key in the first layer of `ls` whose payload contains
it, and fails with `UndefinedVar` when no layer does. -/
theorem C2_get_value_first_layer (st : Store) (name : List Char)
    (scope : Option (List Char)) (ls : List Layer)
    (h : getOrderedLayersE st scope = .ok ls) :
    (match ls.find? (fun l => l.payload.mem name) with
     | some l => ∃ v, l.payload.lookup name = some v ∧
         getValueE st name scope = .ok v
     | none => getValueE st name scope = .error (.undefinedVar name)) := by
  have hspec := firstLayerWith_spec name ls
  have hunf : getValueE st name scope =
      (match firstLayerWith name ls with
       | .ok layer =>
           (match layer.payload.lookup name with
            | some v => .ok v
            | none => .error (.keyError name))
       | .error e => .error e) := by
    unfold getValueE getVarE
    rw [h]
  cases hf : ls.find? (fun l => l.payload.mem name) with
  | none =>
      rw [hf] at hspec
      simp only [hunf, hspec]
  | some l =>
      rw [hf] at hspec
      obtain ⟨hfl, hmem⟩ := hspec
      obtain ⟨v, hv⟩ := Option.isSome_iff_exists.mp hmem
      exact ⟨v, hv, by simp only [hunf, hfl, hv]⟩

/-- A concrete C2 store: two layered sources at levels 100 and 200, the key
`k` present in both. -/
def c2wE : Except Err Store := do
  let s ← addSources Store.empty (.many [
    ⟨chs "s1", some 100, none⟩, ⟨chs "s2", some 200, none⟩]) false
  let s ← setLayer s (chs "s1") [(chs "k", chs "v1")] []
  let s ← setLayer s (chs "s2") [(chs "k", chs "v2"), (chs "j", chs "w")] []
  pure s

def c2w : Store := match c2wE with | .ok s => s | .error _ => Store.empty

def c2wLayers : List Layer := match getOrderedLayersE c2w none with
  | .ok ls => ls
  | .error _ => []

/-- Witness for C2 at the concrete store. -/
theorem C2_get_value_first_layer_witness :
    getOrderedLayersE c2w none = .ok c2wLayers ∧
    (match c2wLayers.find? (fun l => l.payload.mem (chs "k")) with
     | some l => ∃ v, l.payload.lookup (chs "k") = some v ∧
         getValueE c2w (chs "k") none = .ok v
     | none => getValueE c2w (chs "k") none = .error (.undefinedVar (chs "k"))) :=
  ⟨by decide, C2_get_value_first_layer c2w (chs "k") none c2wLayers (by decide)⟩

/-- The C3 store: one source `s1`. -/
def c3StoreE : Except Err Store :=
  addSources Store.empty (.many [⟨chs "s1", some 100, none⟩]) false

/-- `set_scopes` on the acyclic diamond `c=[s1]`, `a=[c]`, `b=[c]`,
`x=[a,b]` (the sibling scope references `a` and `b` share the referenced
scope `c`). -/
def c3Result : Except Err Store :=
  match c3StoreE with
  | .ok s => setScopes s (.dict [
      (chs "c", [chs "s1"]),
      (chs "a", [chs "c"]),
      (chs "b", [chs "c"]),
      (chs "x", [chs "a", chs "b"])])
  | .error e => .error e

/-- C3 (the code side of the bug): on the acyclic diamond the shared mutable
`_seen` list makes `scope_solver` report scope `b` as recursive with the
bogus stack `b -> a -> c -> b`, although the reference graph has no cycle. -/
theorem C3_diamond_false_cycle :
    c3Result = .error (.scopeRecursive (chs "b")
      [chs "b", chs "a", chs "c", chs "b"]) := by
  decide

/-- The store state visible after a `set_scopes` call: the result on success,
the receiver unchanged when the exception propagates (the method's only
assignment to `self._scopes` is the final statement). -/
def setScopesPost (st : Store) (args : ScopesArg) : Store :=
  match setScopes st args with
  | .ok s' => s'
  | .error _ => st

/-- C4: `set_scopes` is transactional — whenever it raises, the store (its
scope definitions included) is exactly what it was before the call. -/
theorem C4_set_scopes_transactional (st : Store) (args : ScopesArg) (e : Err)
    (h : setScopes st args = .error e) : setScopesPost st args = st := by
  simp [setScopesPost, h]

/-- Witness for C4: a reference to a missing source raises and leaves the
store untouched. -/
theorem C4_set_scopes_transactional_witness :
    setScopes Store.empty (.dict [(chs "t", [chs "missing"])])
      = .error (.scopeItemNotFoundRef (chs "missing") (chs "t")) ∧
    setScopesPost Store.empty (.dict [(chs "t", [chs "missing"])]) = Store.empty :=
  ⟨by decide, C4_set_scopes_transactional Store.empty
    (.dict [(chs "t", [chs "missing"])])
    (.scopeItemNotFoundRef (chs "missing") (chs "t")) (by decide)⟩

/-- The C8 store: source `s` (level 100) registered. -/
def c8Store : Store := ⟨[], [(chs "s", ⟨chs "s", some 100, none⟩)], []⟩

/-- C8 (the code side of the bug): re-registering the name `s` with
`force=False` raises `AlreadyExistingSource` in the single-`Source` call
shape, but in the list call shape it silently replaces the source — no error
and the registered sources change. -/
theorem C8_list_shape_overwrites :
    addSources c8Store (.one ⟨chs "s", some 200, none⟩) false
      = .error (.alreadyExistingSource (chs "s")) ∧
    addSources c8Store (.many [⟨chs "s", some 200, none⟩]) false
      = .ok ⟨[], [(chs "s", ⟨chs "s", some 200, none⟩)], []⟩ := by
  exact ⟨by decide, by decide⟩

/-- C9: `expand("$$")` with `feat_pid="X"` returns `"X"`; `expand("$$$$")`
returns `"$$$$"` verbatim for every `feat_pid` and pid (only a run of exactly
two `$` triggers pid expansion); after a four-`$` run expansion continues
(`"a$$$$b${A}"` with `A="v"` gives `"a$$$$bv"`). -/
theorem C9_double_dollar_pid :
    (expandTop [] false '$' (.str (chs "X")) 0 30 (chs "$$")).1 = .ok (chs "X") ∧
    (∀ (fp : FeatPid) (pid : Nat),
      (expandTop [] false '$' fp pid 30 (chs "$$$$")).1 = .ok (chs "$$$$")) ∧
    (expandTop [(chs "A", chs "v")] false '$' (.str (chs "X")) 0 30
      (chs "a$$$$b${A}")).1 = .ok (chs "a$$$$bv") := by
  refine ⟨by decide, fun fp pid => rfl, by decide⟩

/-- The C6 store: a single layered source whose key `a` holds the value
`"${"`, on which the expander raises `MissingClosingBrace` →
`BadSubstitution` (a parse error). -/
def c6StoreE : Except Err Store := do
  let s ← addSources Store.empty (.many [⟨chs "s", none, none⟩]) false
  setLayer s (chs "s") [(chs "a", chs "$\x7b")] []

def c6Store : Store := match c6StoreE with | .ok s => s | .error _ => Store.empty

/-- C6 counterexample: with `on_templating_error = Exception` (the `Raise`
policy) the claim requires the parse error to propagate out of `render`, but
rendering `a` returns the raw value `"${"` successfully — `render_template`
swallowed the `ExpandvarsException` without consulting the setting. -/
theorem C6_counterexample :
    (renderEntry c6Store none
      (some ⟨.raise, .raise, .raise, true, false, true⟩) (chs "a") 20).1
      = .ok (chs "$\x7b") := by
  decide

/-- C6 amended: on the expandvars engine an Expander parse error is never
routed through `on_templating_error`; whatever the three error handlers are,
`render_template` logs and returns the original raw template value unchanged
(the "return raw" fallback is unconditional). -/
theorem C6_parse_error_returns_raw (h₁ h₂ h₃ : Handler) :
    (renderEntry c6Store none (some ⟨h₁, h₂, h₃, true, false, true⟩)
      (chs "a") 20).1 = .ok (chs "$\x7b") := by
  rfl

/-- The C7 store: key `a` holds `"${b}"` and `b` is defined nowhere. -/
def c7StoreE : Except Err Store := do
  let s ← addSources Store.empty (.many [⟨chs "s", none, none⟩]) false
  setLayer s (chs "s") [(chs "a", chs "${b}")] []

def c7Store : Store := match c7StoreE with | .ok s => s | .error _ => Store.empty

/-- C7 counterexample: the key `b` is missing and is requested during
expansion of `a` (a child render, not the top-level key).  The claim requires
the outcome to follow `on_undefined_template_error = "Y"`; the code instead
follows `on_undefined_error = "X"` and renders `a` to `"X"`. -/
theorem C7_counterexample :
    (renderEntry c7Store none
      (some ⟨.callable id, .const (chs "X"), .const (chs "Y"), true, false, true⟩)
      (chs "a") 20).1 = .ok (chs "X") := by
  decide

/-- C7 amended: a key missing during a child render is governed by
`on_undefined_error` — the same setting as the top-level key — and
`on_undefined_template_error` is never consulted on the expandvars path:
whatever `h₃` is, the constant policies `"X"`/`"Z"` yield those constants and
the `Raise` policy propagates `UndefinedVar` for the nested key `b`. -/
theorem C7_child_render_uses_on_undefined_error (h₃ : Handler) :
    (renderEntry c7Store none
      (some ⟨.callable id, .const (chs "X"), h₃, true, false, true⟩)
      (chs "a") 20).1 = .ok (chs "X") ∧
    (renderEntry c7Store none
      (some ⟨.callable id, .const (chs "Z"), h₃, true, false, true⟩)
      (chs "a") 20).1 = .ok (chs "Z") ∧
    (renderEntry c7Store none
      (some ⟨.callable id, .raise, h₃, true, false, true⟩)
      (chs "a") 20).1 = .error (.undefinedVar (chs "b")) := by
  exact ⟨rfl, rfl, rfl⟩

/-! ## C10: the renderer path never raises `UnboundVariable`

`UnboundVariable` is produced only by `getenv` under `nounset=True`
(`ExpandParser.getenv`, the strict-mode branch); `get_template` hardwires
`strict=False`, so the whole render recursion is shown free of that error. -/

/-- A computation that can never end in `UnboundVariable`. -/
def NeverUnbound {σ α : Type} (m : RM σ α) : Prop :=
  ∀ (s : σ) (v : List Char), (m s).1 ≠ .error (.unbound v)

theorem RM.pure_apply {σ α : Type} (a : α) (s : σ) :
    (pure a : RM σ α) s = (.ok a, s) := rfl

theorem RM.bind_apply {σ α β : Type} (m : RM σ α) (f : α → RM σ β) (s : σ) :
    (m >>= f) s = (match m s with
      | (.ok a, s') => f a s'
      | (.error e, s') => (.error e, s')) := rfl

theorem nu_pure {σ α : Type} (a : α) : NeverUnbound (pure a : RM σ α) := by
  intro s v h
  simp [RM.pure_apply] at h

theorem nu_throw {σ α : Type} (e : Err) (he : ∀ v, e ≠ .unbound v) :
    NeverUnbound (throwRM e : RM σ α) := by
  intro s v h
  exact he v (by simpa [throwRM] using h)

theorem nu_bind {σ α β : Type} {m : RM σ α} {f : α → RM σ β}
    (hm : NeverUnbound m) (hf : ∀ a, NeverUnbound (f a)) :
    NeverUnbound (m >>= f) := by
  intro s v h
  rw [RM.bind_apply] at h
  rcases hms : m s with ⟨r, s'⟩
  rw [hms] at h
  cases r with
  | ok a => exact hf a s' v h
  | error e =>
      simp only at h
      have := hm s v
      rw [hms] at this
      simp only at this
      exact this (by rw [Except.error.inj h])

theorem nu_tryCatch {σ α : Type} {m : RM σ α} {h : Err → RM σ α}
    (hm : NeverUnbound m) (hh : ∀ e, (∀ v, e ≠ .unbound v) → NeverUnbound (h e)) :
    NeverUnbound (tryCatchRM m h) := by
  intro s v hcontr
  unfold tryCatchRM at hcontr
  rcases hms : m s with ⟨r, s'⟩
  rw [hms] at hcontr
  cases r with
  | ok a => simp at hcontr
  | error e =>
      have hne : ∀ v', e ≠ .unbound v' := by
        intro v' hev
        have := hm s v'
        rw [hms, hev] at this
        exact this rfl
      exact hh e hne s' v hcontr

theorem retagErr_unbound {inp : List Char} {e : Err} {v : List Char}
    (h : retagErr inp e = .unbound v) : e = .unbound v := by
  cases e <;> simp_all [retagErr]

theorem nu_retag {σ : Type} (inp : List Char) {m : RM σ (List Char)}
    (hm : NeverUnbound m) : NeverUnbound (retagRM inp m) := by
  intro s v h
  unfold retagRM at h
  rcases hms : m s with ⟨r, s'⟩
  rw [hms] at h
  cases r with
  | ok a => simp at h
  | error e =>
      simp only at h
      have := hm s v
      rw [hms] at this
      simp only at this
      exact this (by rw [retagErr_unbound (Except.error.inj h)])

/-- The environ-operation side conditions for `NeverUnbound` reasoning. -/
structure NuOps {σ : Type} (ops : EnvOps σ) : Prop where
  get : ∀ k, NeverUnbound (ops.get k)
  getD : ∀ k d, NeverUnbound (ops.getD k d)
  update : ∀ k v, NeverUnbound (ops.update k v)

theorem nu_pGetenv {σ : Type} {ops : EnvOps σ} {ctx : PCtx}
    (hns : ctx.nounset = false) (hops : NuOps ops)
    (var : List Char) (ind : Bool) (dflt : Option (List Char)) :
    NeverUnbound (pGetenv ops ctx var ind dflt) := by
  unfold pGetenv
  apply nu_bind (hops.get var)
  intro val
  apply nu_bind
  · cases val <;> cases ind <;> first | exact hops.get _ | exact nu_pure _
  · intro val2
    match val2 with
    | some (c :: cs) => exact nu_pure _
    | some [] =>
        cases dflt with
        | some d => exact nu_pure _
        | none => rw [hns]; exact nu_pure _
    | none =>
        cases dflt with
        | some d => exact nu_pure _
        | none => rw [hns]; exact nu_pure _

theorem nu_pStrict {σ : Type} {ops : EnvOps σ} (hops : NuOps ops)
    (var m : List Char) : NeverUnbound (pStrict ops var m) := by
  unfold pStrict
  apply nu_bind (hops.getD var [])
  intro v
  match v with
  | [] => exact nu_throw _ (by simp)
  | c :: cs => exact nu_pure _

theorem nu_pSubstitute {σ : Type} {ops : EnvOps σ} (hops : NuOps ops)
    (var m : List Char) : NeverUnbound (pSubstitute ops var m) := by
  unfold pSubstitute
  apply nu_bind (hops.get var)
  intro v
  match v with
  | some (_ :: _) => exact nu_pure _
  | some [] => exact nu_pure _
  | none => exact nu_pure _

theorem nu_pDefault {σ : Type} {ops : EnvOps σ} {ctx : PCtx}
    (hns : ctx.nounset = false) (hops : NuOps ops)
    (var m : List Char) (set_ ind : Bool) :
    NeverUnbound (pDefault ops ctx var m set_ ind) := by
  unfold pDefault
  apply nu_bind
  · cases set_
    · exact nu_pure _
    · apply nu_bind (hops.get var)
      intro v
      match v with
      | some (_ :: _) => exact nu_pure _
      | some [] => exact hops.update _ _
      | none => exact hops.update _ _
  · intro _
    exact nu_pGetenv hns hops var ind (some m)

theorem nu_pLength {σ : Type} {ops : EnvOps σ} {ctx : PCtx}
    (hns : ctx.nounset = false) (hops : NuOps ops)
    (var m : List Char) (off : Int) :
    NeverUnbound (pLength ops ctx var m off) := by
  unfold pLength
  simp only []
  split
  · exact nu_bind (nu_pGetenv hns hops var false none) (fun _ => nu_pure _)
  · split
    · split
      · exact nu_bind (nu_pGetenv hns hops var false none) (fun _ => nu_pure _)
      · exact nu_throw _ (by simp)
    · split
      · exact nu_throw _ (by simp)
      · exact nu_bind (nu_pGetenv hns hops var false none) (fun _ => nu_pure _)

theorem nu_offGo {σ : Type} {ops : EnvOps σ} {ctx : PCtx}
    (hns : ctx.nounset = false) (hops : NuOps ops)
    (var : List Char) : ∀ (l buff : List Char),
    NeverUnbound (offGo ops ctx var buff l) := by
  intro l
  induction l with
  | nil =>
      intro buff
      unfold offGo
      exact nu_bind (nu_pGetenv hns hops var false none) (fun _ => nu_pure _)
  | cons c cs ih =>
      intro buff
      unfold offGo
      split
      · exact nu_pLength hns hops var cs _
      · exact ih _

theorem nu_pOffset {σ : Type} {ops : EnvOps σ} {ctx : PCtx}
    (hns : ctx.nounset = false) (hops : NuOps ops)
    (var m : List Char) : NeverUnbound (pOffset ops ctx var m) :=
  nu_offGo hns hops var m []

theorem nu_expandGo {σ : Type} {recurse : PCall → RM σ (List Char)}
    (hrec : ∀ c, NeverUnbound (recurse c)) (vsym : Char) :
    ∀ l, NeverUnbound (expandGo recurse vsym l) := by
  intro l
  induction l with
  | nil => exact nu_pure _
  | cons c cs ih =>
      unfold expandGo
      split
      · exact hrec _
      · split
        · exact hrec _
        · exact nu_bind ih (fun r => nu_pure _)

theorem nu_escapeBody {σ : Type} {recurse : PCall → RM σ (List Char)}
    (hrec : ∀ c, NeverUnbound (recurse c)) (vsym : Char) :
    ∀ l, NeverUnbound (escapeBody recurse vsym l) := by
  intro l
  match l with
  | [] => exact nu_throw _ (by simp)
  | [c] => exact nu_pure _
  | c0 :: c1 :: rest =>
      simp only [escapeBody]
      split
      · exact nu_bind (hrec _) (fun r => nu_pure _)
      · split
        · split
          · exact nu_bind (hrec _) (fun r => nu_pure _)
          · split
            · exact nu_bind (hrec _) (fun r => nu_pure _)
            · exact nu_bind (hrec _) (fun r => nu_pure _)
        · exact nu_bind (hrec _) (fun r => nu_pure _)

theorem nu_buffGo {σ : Type} {ops : EnvOps σ} {ctx : PCtx}
    {recurse : PCall → RM σ (List Char)}
    (hns : ctx.nounset = false) (hops : NuOps ops)
    (hrec : ∀ c, NeverUnbound (recurse c)) :
    ∀ (l buff : List Char), NeverUnbound (buffGo ops ctx recurse buff l) := by
  intro l
  induction l with
  | nil =>
      intro buff
      exact nu_pGetenv hns hops buff false none
  | cons c cs ih =>
      intro buff
      unfold buffGo
      split
      · exact ih _
      · split
        · exact nu_bind (nu_pGetenv hns hops buff false none)
            (fun v => nu_bind (hrec _) (fun r => nu_pure _))
        · exact nu_bind (hrec _) (fun r => nu_pure _)

theorem nu_expandVarBody {σ : Type} {ops : EnvOps σ} {ctx : PCtx}
    {recurse : PCall → RM σ (List Char)}
    (hns : ctx.nounset = false) (hops : NuOps ops)
    (hrec : ∀ c, NeverUnbound (recurse c)) :
    ∀ l, NeverUnbound (expandVarBody ops ctx recurse l) := by
  intro l
  match l with
  | [] => exact nu_pure _
  | c0 :: rest =>
      simp only [expandVarBody]
      split
      · exact nu_bind (hrec _) (fun r => nu_pure _)
      · split
        · split
          · cases ctx.featPid with
            | enabled => exact nu_bind (hrec _) (fun r => nu_pure _)
            | disabled => exact nu_bind (hrec _) (fun r => nu_pure _)
            | str s => exact nu_bind (hrec _) (fun r => nu_pure _)
          · exact nu_bind (hrec _) (fun r => nu_pure _)
        · split
          · exact hrec _
          · exact nu_buffGo hns hops hrec _ _

theorem nu_modGo {σ : Type} {ops : EnvOps σ} {ctx : PCtx}
    {recurse : PCall → RM σ (List Char)}
    (hns : ctx.nounset = false) (hops : NuOps ops)
    (hrec : ∀ c, NeverUnbound (recurse c)) (ind : Bool) :
    ∀ (l buff : List Char), NeverUnbound (modGo ops ctx recurse ind buff l) := by
  intro l
  induction l with
  | nil =>
      intro buff
      exact nu_throw _ (by simp)
  | cons c cs ih =>
      intro buff
      unfold modGo
      split
      · exact ih _
      · split
        · exact nu_bind (nu_pGetenv hns hops buff ind none)
            (fun v => nu_bind (hrec _) (fun r => nu_pure _))
        · split
          · exact hrec _
          · exact hrec _

theorem nu_modifierVarBody {σ : Type} {ops : EnvOps σ} {ctx : PCtx}
    {recurse : PCall → RM σ (List Char)}
    (hns : ctx.nounset = false) (hops : NuOps ops)
    (hrec : ∀ c, NeverUnbound (recurse c)) :
    ∀ l, NeverUnbound (modifierVarBody ops ctx recurse l) := by
  intro l
  unfold modifierVarBody
  split
  · exact nu_throw _ (by simp)
  · exact nu_modGo hns hops hrec _ _ _

theorem nu_advancedBody {σ : Type} {ops : EnvOps σ} {ctx : PCtx}
    {recurse : PCall → RM σ (List Char)}
    (hns : ctx.nounset = false) (hops : NuOps ops)
    (hrec : ∀ c, NeverUnbound (recurse c)) :
    ∀ (var vars_ : List Char) (ind : Bool),
    NeverUnbound (advancedBody ops ctx recurse var vars_ ind) := by
  intro var vars_ ind
  unfold advancedBody
  split
  · exact nu_throw _ (by simp)
  · split
    · exact nu_throw _ (by simp)
    · apply nu_bind (hrec _)
      intro modifier
      split
      · exact nu_throw _ (by simp)
      · exact nu_bind (nu_pDefault hns hops var _ false ind)
          (fun a => nu_bind (hrec _) (fun r => nu_pure _))
      · exact nu_bind (nu_pDefault hns hops var _ true ind)
          (fun a => nu_bind (hrec _) (fun r => nu_pure _))
      · exact nu_bind (nu_pSubstitute hops var _)
          (fun a => nu_bind (hrec _) (fun r => nu_pure _))
      · exact nu_bind (nu_pStrict hops var _)
          (fun a => nu_bind (hrec _) (fun r => nu_pure _))
      · exact nu_bind (nu_pOffset hns hops var _)
          (fun a => nu_bind (hrec _) (fun r => nu_pure _))

theorem nu_pRun {σ : Type} {ops : EnvOps σ} {ctx : PCtx}
    (hns : ctx.nounset = false) (hops : NuOps ops) :
    ∀ (fuel : Nat) (call : PCall), NeverUnbound (pRun ops ctx fuel call) := by
  intro fuel
  induction fuel with
  | zero => intro call; exact nu_throw _ (by simp)
  | succ f ih =>
      intro call
      cases call with
      | expand s => exact nu_retag _ (nu_expandGo ih ctx.varSymbol s)
      | expandVar s => exact nu_expandVarBody hns hops ih s
      | escape s => exact nu_escapeBody ih ctx.varSymbol s
      | modifierVar s => exact nu_modifierVarBody hns hops ih s
      | advanced var s ind => exact nu_advancedBody hns hops ih var s ind

theorem firstLayerWith_not_unbound (name : List Char) (ls : List Layer)
    (v : List Char) : firstLayerWith name ls ≠ .error (.unbound v) := by
  induction ls with
  | nil => simp [firstLayerWith]
  | cons l rest ih =>
      unfold firstLayerWith
      split
      · simp
      · exact ih

theorem getOrderedSourcesE_not_unbound (st : Store) (sc : Option (List Char))
    (v : List Char) : getOrderedSourcesE st sc ≠ .error (.unbound v) := by
  unfold getOrderedSourcesE
  cases sc with
  | none => simp
  | some s =>
      rcases hl : Dict.lookup st.scopes s with _ | l <;> simp [hl]

theorem getValueE_not_unbound (st : Store) (n : List Char)
    (sc : Option (List Char)) (v : List Char) :
    getValueE st n sc ≠ .error (.unbound v) := by
  unfold getValueE getVarE getOrderedLayersE
  cases ho : getOrderedSourcesE st sc with
  | ok srcs =>
      simp only [ho]
      cases hf : firstLayerWith n (srcs.filterMap fun s => st.layeredStore.lookup s.name) with
      | ok layer =>
          simp only [hf]
          rcases hl : Dict.lookup layer.payload n with _ | w <;> simp [hl]
      | error e =>
          simp only [hf]
          intro hcontr
          have he : e = .unbound v := Except.error.inj hcontr
          exact firstLayerWith_not_unbound n
            (srcs.filterMap fun s => st.layeredStore.lookup s.name) v (by rw [hf, he])
  | error e =>
      simp only [ho]
      intro hcontr
      have he : e = .unbound v := Except.error.inj hcontr
      exact getOrderedSourcesE_not_unbound st sc v (by rw [ho, he])

theorem nu_runUndefHandler (h : Handler) (varName : List Char) :
    NeverUnbound (runUndefHandler h varName) := by
  cases h with
  | raise => exact nu_throw _ (by simp)
  | callable f => exact nu_pure _
  | const s => exact nu_pure _

theorem nu_isNotCircular (chain : List (List Char)) :
    NeverUnbound (isNotCircularRM chain) := by
  unfold isNotCircularRM
  split
  · exact nu_pure _
  · exact nu_pure _
  · split
    · exact nu_throw _ (by simp)
    · exact nu_pure _

theorem nu_lazyOps {recurseRender : List (List Char) → List Char → RM RState (List Char)}
    (hrec : ∀ ps k, NeverUnbound (recurseRender ps k)) (chain : List (List Char)) :
    NuOps (lazyOps recurseRender chain) := by
  refine ⟨fun k => ?_, fun k d => nu_throw _ (by simp), fun k v => nu_throw _ (by simp)⟩
  unfold lazyOps
  simp only []
  split
  · exact nu_throw _ (by simp)
  · exact nu_bind (nu_isNotCircular chain)
      (fun _ => nu_bind (hrec chain k) (fun v => nu_pure _))

theorem nu_renderTemplate {σ : Type} {inst : TplInstance} {ops : EnvOps σ}
    (hstrict : inst.strict = false) (hops : NuOps ops) (pid fuel : Nat) :
    NeverUnbound (renderTemplate σ inst ops pid fuel) := by
  unfold renderTemplate
  apply nu_tryCatch
  · exact nu_pRun (by simpa using hstrict) hops fuel _
  · intro e he
    split
    · exact nu_pure _
    · split
      · exact nu_pure _
      · exact nu_throw _ he

theorem nu_renderVarProcess {ctx : RCtx}
    {recurseRender : List (List Char) → List Char → RM RState (List Char)}
    (hrec : ∀ ps k, NeverUnbound (recurseRender ps k))
    (parserFuel : Nat) (chain : List (List Char)) (varName : List Char) :
    NeverUnbound (renderVarProcess ctx recurseRender parserFuel chain varName) := by
  unfold renderVarProcess
  apply nu_bind
  · cases hg : getValueE ctx.store varName ctx.scope with
    | ok v => exact nu_pure _
    | error e =>
        cases e with
        | undefinedVar n => exact nu_runUndefHandler _ _
        | unbound c => exact absurd hg (getValueE_not_unbound _ _ _ _)
        | _ => exact nu_throw _ (by simp)
  · intro value
    split
    · exact nu_pure _
    · split
      · exact nu_pure _
      · exact nu_renderTemplate rfl (nu_lazyOps hrec chain) ctx.pid parserFuel

theorem nu_cacheSave (doCache : Bool) (varName value : List Char) :
    NeverUnbound (cacheSave doCache varName value) := by
  intro s v h
  simp [cacheSave] at h

theorem nu_renderVar (ctx : RCtx) :
    ∀ (fuel : Nat) (parents : List (List Char)) (key : List Char),
    NeverUnbound (renderVar ctx fuel parents key) := by
  intro fuel
  induction fuel with
  | zero => intro parents key; exact nu_throw _ (by simp)
  | succ f ih =>
      intro parents key
      unfold renderVar
      split
      · exact nu_throw _ (by simp)
      · intro s v h
        split at h
        · simp only at h
          split at h
          · simp at h
          · exact nu_bind (nu_renderVarProcess ih f (key :: parents) key)
              (fun value => nu_bind (nu_cacheSave _ _ _) (fun _ => nu_pure _)) s v h
        · exact nu_bind (nu_renderVarProcess ih f (key :: parents) key)
            (fun value => nu_bind (nu_cacheSave _ _ _) (fun _ => nu_pure _)) s v h

/-- C10: `get_template` constructs its `ExpandVarsInstance` with the default
`strict=False` and `symbol="$"` whatever the engine object's own `strict` and
`var_symbol` attributes are, so every expansion run by `Renderer.render_var`
uses non-strict mode; consequently no render — any store, scope chain, key,
settings, engine attributes, fuel or cache state — can ever end in the
strict-mode `UnboundVariable` error. -/
theorem C10_render_never_unbound :
    (∀ (e : EngAttrs) (value : List Char), getTemplate e value = ⟨value, false, '$'⟩) ∧
    (∀ (ctx : RCtx) (fuel : Nat) (parents : List (List Char)) (key : List Char)
      (st : RState) (v : List Char),
      (renderVar ctx fuel parents key st).1 ≠ .error (.unbound v)) :=
  ⟨fun _ _ => rfl,
   fun ctx fuel parents key st v => nu_renderVar ctx fuel parents key st v⟩

/-! ## C5: circular template chains always raise
`TemplateRenderingCircularValue` -/

/-- The canonical one-variable template `"${k}"`. -/
def bracket (k : List Char) : List Char := '$' :: '{' :: (k ++ ['}'])

/-- The ancestor `QueryCtl` key chain at depth `m` of a render that started
at `keys j` on an `n`-cycle: `[keys ((j+m-1) % n), ..., keys (j % n)]`
(nearest parent first). -/
def revChain (keys : Nat → List Char) (n j : Nat) : Nat → List (List Char)
  | 0 => []
  | m + 1 => keys ((j + m) % n) :: revChain keys n j m

theorem circWalk_none (key : List Char) :
    ∀ (ps stack : List (List Char)), (∀ x ∈ ps, x ≠ key) →
    circWalk key stack ps = none := by
  intro ps
  induction ps with
  | nil => intro stack _; rfl
  | cons p ps' ih =>
      intro stack hall
      unfold circWalk
      rw [if_neg (hall p (by simp))]
      exact ih _ (fun x hx => hall x (by simp [hx]))

theorem circWalk_last (key : List Char) :
    ∀ (qs stack : List (List Char)), (∀ x ∈ qs, x ≠ key) →
    circWalk key stack (qs ++ [key]) = some ((stack ++ qs) ++ [key]) := by
  intro qs
  induction qs with
  | nil =>
      intro stack _
      unfold circWalk
      simp [circWalk]
  | cons q qs' ih =>
      intro stack hall
      have hq : q ≠ key := hall q (by simp)
      simp only [List.cons_append]
      unfold circWalk
      rw [if_neg hq, ih (stack ++ [q]) (fun x hx => hall x (by simp [hx]))]
      simp

/-- Splitting the chain at depth `m ≥ 1`: it ends in `keys (j % n)` and the
earlier entries carry indices `1 ≤ t < m`. -/
theorem revChain_split (keys : Nat → List Char) (n j : Nat) :
    ∀ m, 1 ≤ m →
    ∃ qs, revChain keys n j m = qs ++ [keys (j % n)] ∧
      ∀ x ∈ qs, ∃ t, 1 ≤ t ∧ t < m ∧ x = keys ((j + t) % n) := by
  intro m
  induction m with
  | zero => omega
  | succ m ih =>
      intro _
      cases Nat.eq_zero_or_pos m with
      | inl h0 =>
          subst h0
          exact ⟨[], by simp [revChain], by simp⟩
      | inr hm =>
          obtain ⟨qs, hq, helem⟩ := ih hm
          refine ⟨keys ((j + m) % n) :: qs, ?_, ?_⟩
          · simp [revChain, hq]
          · intro x hx
            rcases List.mem_cons.mp hx with rfl | hx
            · exact ⟨m, hm, Nat.lt_succ_self m, rfl⟩
            · obtain ⟨t, h1, h2, h3⟩ := helem x hx
              exact ⟨t, h1, h2.trans (Nat.lt_succ_self m), h3⟩

theorem pRun_succ_expand {σ : Type} (ops : EnvOps σ) (ctx : PCtx) (f : Nat)
    (s : List Char) :
    pRun ops ctx (f + 1) (.expand s)
      = retagRM s (expandGo (pRun ops ctx f) ctx.varSymbol s) := rfl

theorem pRun_succ_expandVar {σ : Type} (ops : EnvOps σ) (ctx : PCtx) (f : Nat)
    (s : List Char) :
    pRun ops ctx (f + 1) (.expandVar s)
      = expandVarBody ops ctx (pRun ops ctx f) s := rfl

theorem pRun_succ_modifierVar {σ : Type} (ops : EnvOps σ) (ctx : PCtx) (f : Nat)
    (s : List Char) :
    pRun ops ctx (f + 1) (.modifierVar s)
      = modifierVarBody ops ctx (pRun ops ctx f) s := rfl

/-- Scanning a valid name inside `${...}`: the `_expand_modifier_var` loop
collects the whole name and resolves it through `getenv`, then expands the
(empty) remainder. -/
theorem modGo_scan {σ : Type} (ops : EnvOps σ) (ctx : PCtx)
    (recurse : PCall → RM σ (List Char)) (ind : Bool) :
    ∀ (name buff : List Char), (∀ c ∈ name, validCh c = true) →
    modGo ops ctx recurse ind buff (name ++ ['}'])
      = pGetenv ops ctx (buff ++ name) ind none >>= fun v =>
        recurse (.expand []) >>= fun r => pure (v ++ r) := by
  intro name
  induction name with
  | nil =>
      intro buff _
      simp [modGo, (by decide : validCh '}' = false)]
  | cons c cs ih =>
      intro buff hv
      have hc : validCh c = true := hv c (by simp)
      simp only [List.cons_append, modGo, hc, if_true, List.append_eq]
      rw [ih (buff ++ [c]) (fun x hx => hv x (by simp [hx]))]
      simp

/-- Expanding `"${name}"` when the environ lookup of `name` raises: the error
propagates out of `expand` through its re-tagging `except` clauses. -/
theorem pRun_bracket_err {σ : Type} {ops : EnvOps σ} {ctx : PCtx}
    (hvs : ctx.varSymbol = '$') (f : Nat) (name : List Char) (st st' : σ)
    (e : Err) (hne : name ≠ []) (hv : ∀ c ∈ name, validCh c = true)
    (hget : ops.get name st = (.error e, st')) :
    pRun ops ctx (f + 4) (.expand (bracket name)) st
      = (.error (retagErr (bracket name) e), st') := by
  obtain ⟨hd, tl, rfl⟩ : ∃ hd tl, name = hd :: tl := by
    cases name with
    | nil => exact absurd rfl hne
    | cons hd tl => exact ⟨hd, tl, rfl⟩
  have hhd : validCh hd = true := hv hd (by simp)
  have hbang : hd ≠ '!' := by
    intro hcontr
    rw [hcontr] at hhd
    exact absurd hhd (by decide)
  rw [show f + 4 = (f + 3) + 1 from rfl, pRun_succ_expand]
  unfold bracket
  have hgo : expandGo (pRun ops ctx (f + 3)) ctx.varSymbol
      ('$' :: '{' :: (hd :: tl ++ ['}']))
      = pRun ops ctx (f + 3) (.expandVar ('{' :: (hd :: tl ++ ['}']))) := by
    simp [expandGo, hvs]
  rw [hgo, show f + 3 = (f + 2) + 1 from rfl, pRun_succ_expandVar]
  have hvar : expandVarBody ops ctx (pRun ops ctx (f + 2))
      ('{' :: (hd :: tl ++ ['}']))
      = pRun ops ctx (f + 2) (.modifierVar (hd :: tl ++ ['}'])) := by
    simp [expandVarBody, hvs]
  rw [hvar, show f + 2 = (f + 1) + 1 from rfl, pRun_succ_modifierVar]
  have harm :
      (match hd :: tl ++ ['}'] with
        | '!' :: t => ((true : Bool), t)
        | v => ((false : Bool), v)) = (false, hd :: tl ++ ['}']) := by
    split
    · rename_i heq
      rw [List.cons_append] at heq
      exact absurd (List.head_eq_of_cons_eq heq.symm) hbang.symm
    · rfl
  have hmod : modifierVarBody ops ctx (pRun ops ctx (f + 1)) (hd :: tl ++ ['}'])
      = modGo ops ctx (pRun ops ctx (f + 1)) false [] (hd :: tl ++ ['}']) := by
    simp only [modifierVarBody]
    rw [if_neg (by simp)]
    simp only [harm]
  rw [hmod,
    show (hd :: tl ++ ['}'] : List Char) = (hd :: tl) ++ ['}'] from by simp,
    modGo_scan ops ctx (pRun ops ctx (f + 1)) false (hd :: tl) [] hv]
  have hpg : pGetenv ops ctx ([] ++ hd :: tl) false none st = (.error e, st') := by
    unfold pGetenv
    rw [List.nil_append, RM.bind_apply, hget]
  unfold retagRM
  rw [RM.bind_apply, hpg]

theorem RM.pure_bind {σ α β : Type} (a : α) (f : α → RM σ β) :
    ((pure a : RM σ α) >>= f) = f a := by
  funext s
  rw [RM.bind_apply, RM.pure_apply]

/-- One step of a failing chain render: when the looked-up value is the
single-variable template `"${k'}"` and the lazy environ lookup of `k'` raises
an error that the engine neither re-tags nor swallows, `render_var`
propagates exactly that error (and performs no cache write). -/
theorem renderVar_chain_step (ctx : RCtx) (f : Nat)
    (parents : List (List Char)) (key k' : List Char) (st st' : RState) (E : Err)
    (hkey : key.isEmpty = false)
    (hmiss : Dict.lookup st.cache key = none)
    (hval : getValueE ctx.store key ctx.scope = .ok (bracket k'))
    (heng : ctx.engine = {})
    (htpl : ctx.settings.template = true)
    (hk'ne : k' ≠ []) (hk'v : ∀ c ∈ k', validCh c = true)
    (hE1 : E.isExpandvarsException = false) (hE2 : E ≠ .invalidTplVarName)
    (hretag : retagErr (bracket k') E = E)
    (hlazy : (lazyOps (renderVar ctx f) (key :: parents)).get k' st = (.error E, st'))
    (hf : 4 ≤ f) :
    renderVar ctx (f + 1) parents key st = (.error E, st') := by
  obtain ⟨g, rfl⟩ : ∃ g, f = g + 4 := ⟨f - 4, by omega⟩
  have hproc : renderVarProcess ctx (renderVar ctx (g + 4)) (g + 4)
      (key :: parents) key st = (.error E, st') := by
    unfold renderVarProcess
    rw [hval]
    simp only [RM.pure_bind, htpl, heng, Bool.not_true, Bool.false_eq_true,
      if_false]
    have htl : isTemplate {} (bracket k') = true := by
      unfold isTemplate bracket
      simp [EngAttrs.varSymbol]
    rw [htl]
    simp only [Bool.not_true, Bool.false_eq_true, if_false]
    unfold renderTemplate
    unfold tryCatchRM
    simp only [getTemplate]
    rw [pRun_bracket_err rfl g k' st st' E hk'ne hk'v hlazy, hretag]
    simp only [hE1, Bool.false_eq_true, if_false, if_neg hE2]
    rfl
  have hsucc : renderVar ctx ((g + 4) + 1) parents key
      = if key.isEmpty then throwRM .assertionError
        else fun st =>
          match (if ctx.settings.cache then Dict.lookup st.cache key else none) with
          | some v => (.ok v, st)
          | none =>
              (renderVarProcess ctx (renderVar ctx (g + 4)) (g + 4)
                  (key :: parents) key >>= fun value =>
                cacheSave ctx.settings.cache key value >>= fun _ =>
                pure value) st := rfl
  rw [hsucc]
  simp only [hkey, Bool.false_eq_true, if_false]
  have hscrut : (if ctx.settings.cache = true
      then Dict.lookup st.cache key else none) = none := by
    rw [hmiss]
    cases ctx.settings.cache <;> rfl
  simp only [hscrut]
  rw [RM.bind_apply, hproc]

theorem mem_revChain (keys : Nat → List Char) (n j : Nat) :
    ∀ m x, x ∈ revChain keys n j m → ∃ t, t < m ∧ x = keys ((j + t) % n) := by
  intro m
  induction m with
  | zero => intro x hx; simp [revChain] at hx
  | succ m ih =>
      intro x hx
      rcases List.mem_cons.mp hx with rfl | hx
      · exact ⟨m, Nat.lt_succ_self m, rfl⟩
      · obtain ⟨t, h1, h2⟩ := ih x hx
        exact ⟨t, h1.trans (Nat.lt_succ_self m), h2⟩

/-- At depth `d < n` of the chain the circular check passes: the current key
differs from every ancestor. -/
theorem isNotCircular_chain_pass (keys : Nat → List Char) (n j d : Nat)
    (hall : ∀ t, t < d → keys ((j + t) % n) ≠ keys ((j + d) % n)) :
    isNotCircularRM (keys ((j + d) % n) :: revChain keys n j d) = pure () := by
  cases d with
  | zero => rfl
  | succ m =>
      simp only [revChain, isNotCircularRM]
      rw [circWalk_none _ _ _ ?hnone]
      case hnone =>
        intro x hx
        obtain ⟨t, h1, h2⟩ := mem_revChain keys n j (m + 1) x hx
        rw [h2]
        exact hall t h1

/-- At depth `n` the circular check fires: the walk meets the starting key at
the end of the ancestor chain and reports the whole stack. -/
theorem isNotCircular_chain_throw (keys : Nat → List Char) (n j : Nat)
    (hn : 0 < n) (hjn : j % n = j)
    (hallt : ∀ t, 1 ≤ t → t < n → keys ((j + t) % n) ≠ keys j) :
    isNotCircularRM (keys j :: revChain keys n j n)
      = throwRM (.circular (keys j) (keys j :: revChain keys n j n)) := by
  obtain ⟨m, rfl⟩ : ∃ m, n = m + 1 := ⟨n - 1, by omega⟩
  obtain ⟨qs, hq, helem⟩ := revChain_split keys (m + 1) j (m + 1) (by omega)
  rw [hjn] at hq
  have hqs_ne : ∀ x ∈ qs, x ≠ keys j := by
    intro x hx
    obtain ⟨t, h1, h2, h3⟩ := helem x hx
    rw [h3]
    exact hallt t h1 h2
  simp only [revChain, isNotCircularRM]
  simp only [revChain] at hq
  rw [hq, circWalk_last _ _ _ hqs_ne]
  simp

theorem mod_succ_shift (n x : Nat) : (x % n + 1) % n = (x + 1) % n := by
  conv_rhs => rw [Nat.add_mod]
  rw [Nat.add_mod (x % n) 1, Nat.mod_mod_of_dvd _ (dvd_refl n)]

theorem chain_mod_inj {n j : Nat} {keys : Nat → List Char} (hn : 0 < n)
    (hinj : ∀ i, i < n → ∀ i', i' < n → keys i = keys i' → i = i')
    (a b : Nat) (ha : a < n) (hb : b < n)
    (h : keys ((j + a) % n) = keys ((j + b) % n)) : a = b := by
  have h1 : (j + a) % n = (j + b) % n :=
    hinj _ (Nat.mod_lt _ hn) _ (Nat.mod_lt _ hn) h
  have h2 : a ≡ b [MOD n] := Nat.ModEq.add_left_cancel' j h1
  have h3 : a % n = b % n := h2
  rwa [Nat.mod_eq_of_lt ha, Nat.mod_eq_of_lt hb] at h3

/-- The chain induction: starting at depth `d ≤ n` with the matching ancestor
chain and an empty cache, the render fails with the circular-reference error
whose stack is the full chain. -/
theorem c5_aux (store : Store) (scope : Option (List Char)) (n : Nat)
    (keys : Nat → List Char) (s : RSettings) (j : Nat)
    (hn : 0 < n) (hj : j < n)
    (hne : ∀ i, i < n → keys i ≠ [])
    (hvalid : ∀ i, i < n → ∀ c ∈ keys i, validCh c = true)
    (hinj : ∀ i, i < n → ∀ i', i' < n → keys i = keys i' → i = i')
    (hval : ∀ i, i < n →
      getValueE store (keys i) scope = .ok (bracket (keys ((i + 1) % n))))
    (htpl : s.template = true) :
    ∀ (k d fuel : Nat), d ≤ n → n - d = k → (n - d) + 5 ≤ fuel →
    renderVar ⟨store, scope, {}, s, 0⟩ fuel (revChain keys n j d)
      (keys ((j + d) % n)) ⟨[]⟩
      = (.error (.circular (keys j) (keys j :: revChain keys n j n)), ⟨[]⟩) := by
  have hmodlt : ∀ a : Nat, (j + a) % n < n := fun a => Nat.mod_lt _ hn
  have hkey_ne : ∀ a : Nat, (keys ((j + a) % n)).isEmpty = false := by
    intro a
    have h := hne _ (hmodlt a)
    cases hx : keys ((j + a) % n) with
    | nil => exact absurd hx h
    | cons c cs => rfl
  intro k
  induction k with
  | zero =>
      intro d fuel hd hk hfuel
      have hdn : d = n := by omega
      subst d
      obtain ⟨f, rfl⟩ : ∃ f, fuel = f + 1 := ⟨fuel - 1, by omega⟩
      have hcur : (j + n) % n = j := by
        rw [Nat.add_mod_right, Nat.mod_eq_of_lt hj]
      rw [show keys ((j + n) % n) = keys j from by rw [hcur]]
      apply renderVar_chain_step _ _ _ _ (keys ((j + 1) % n))
      · have h := hne j hj
        cases hx : keys j with
        | nil => exact absurd hx h
        | cons c cs => rfl
      · rfl
      · exact hval j hj
      · rfl
      · exact htpl
      · exact hne _ (hmodlt 1)
      · exact hvalid _ (hmodlt 1)
      · rfl
      · simp
      · rfl
      · -- the lazy environ lookup raises the circular error
        simp only [lazyOps]
        rw [if_neg (by simp [List.isEmpty_iff, hne _ (hmodlt 1)])]
        rw [RM.bind_apply]
        rw [isNotCircular_chain_throw keys n j hn (Nat.mod_eq_of_lt hj) ?hallt]
        case hallt =>
          intro t h1 h2 hcontr
          have : t = 0 := by
            have := chain_mod_inj hn hinj t 0 h2 hn
              (by rw [Nat.add_zero, Nat.mod_eq_of_lt hj]; exact hcontr)
            omega
          omega
        rfl
      · omega
  | succ k ihk =>
      intro d fuel hd hk hfuel
      have hdlt : d < n := by omega
      obtain ⟨f, rfl⟩ : ∃ f, fuel = f + 1 := ⟨fuel - 1, by omega⟩
      apply renderVar_chain_step _ _ _ _ (keys ((j + (d + 1)) % n))
      · exact hkey_ne d
      · rfl
      · have h := hval _ (hmodlt d)
        rw [mod_succ_shift n (j + d)] at h
        exact h
      · rfl
      · exact htpl
      · exact hne _ (hmodlt (d + 1))
      · exact hvalid _ (hmodlt (d + 1))
      · rfl
      · simp
      · rfl
      · -- circular check passes, the child render fails by induction
        simp only [lazyOps]
        rw [if_neg (by simp [List.isEmpty_iff, hne _ (hmodlt (d + 1))])]
        rw [RM.bind_apply, isNotCircular_chain_pass keys n j d ?hpass,
          RM.pure_apply]
        case hpass =>
          intro t ht hcontr
          have := chain_mod_inj hn hinj t d (by omega) hdlt hcontr
          omega
        simp only []
        rw [RM.bind_apply]
        rw [show (keys ((j + d) % n) :: revChain keys n j d)
            = revChain keys n j (d + 1) from rfl,
          ihk (d + 1) f (by omega) (by omega) (by omega)]
      · omega

/-- C5: for every store whose values form a circular template reference chain
of any length `n` (key `i` holding exactly `"${key (i+1 mod n)}"`, the keys
pairwise distinct, non-empty, of identifier characters), rendering any key of
the chain with a fresh renderer raises `TemplateRenderingCircularValue`
carrying the full chain of keys, for every choice of the three error-handler
settings and of the cache flag (the error is never converted to a value). -/
theorem C5_circular_chain (store : Store) (scope : Option (List Char))
    (n j fuel : Nat) (keys : Nat → List Char) (s : RSettings)
    (hn : 0 < n) (hj : j < n)
    (hne : ∀ i, i < n → keys i ≠ [])
    (hvalid : ∀ i, i < n → ∀ c ∈ keys i, validCh c = true)
    (hinj : ∀ i, i < n → ∀ i', i' < n → keys i = keys i' → i = i')
    (hval : ∀ i, i < n →
      getValueE store (keys i) scope = .ok (bracket (keys ((i + 1) % n))))
    (htpl : s.template = true)
    (hfuel : n + 5 ≤ fuel) :
    renderVar ⟨store, scope, {}, s, 0⟩ fuel [] (keys j) ⟨[]⟩
      = (.error (.circular (keys j) (keys j :: revChain keys n j n)), ⟨[]⟩) := by
  have h := c5_aux store scope n keys s j hn hj hne hvalid hinj hval htpl
    n 0 fuel (by omega) (by omega) (by omega)
  simpa [revChain, Nat.mod_eq_of_lt hj] using h

/-- The keys of the concrete witness chain: `"k"`, `"kk"`. -/
def c5keys : Nat → List Char := fun i => List.replicate (i + 1) 'k'

/-- The witness store: a single source whose layer is the two-key cycle
`k = "${kk}"`, `kk = "${k}"`. -/
def c5wE : Except Err Store := do
  let s ← addSources Store.empty (.many [⟨chs "s", none, none⟩]) false
  setLayer s (chs "s") [(chs "k", chs "${kk}"), (chs "kk", chs "${k}")] []

def c5w : Store := match c5wE with | .ok s => s | .error _ => Store.empty

/-- Witness for C5 at the two-key cycle. -/
theorem C5_circular_chain_witness :
    ((0 < 2) ∧ (0 < 2) ∧ (∀ i, i < 2 → c5keys i ≠ []) ∧
     (∀ i, i < 2 → ∀ c ∈ c5keys i, validCh c = true) ∧
     (∀ i, i < 2 → ∀ i', i' < 2 → c5keys i = c5keys i' → i = i') ∧
     (∀ i, i < 2 → getValueE c5w (c5keys i) none
        = .ok (bracket (c5keys ((i + 1) % 2)))) ∧
     defaultSettings.template = true ∧ 2 + 5 ≤ 7) ∧
    renderVar ⟨c5w, none, {}, defaultSettings, 0⟩ 7 [] (c5keys 0) ⟨[]⟩
      = (.error (.circular (c5keys 0) (c5keys 0 :: revChain c5keys 2 0 2)), ⟨[]⟩) :=
  ⟨⟨by decide, by decide, by decide, by decide, by decide, by decide, by decide,
    by decide⟩,
   C5_circular_chain c5w none 2 0 7 c5keys defaultSettings (by decide) (by decide)
     (by decide) (by decide) (by decide) (by decide) (by decide) (by decide)⟩
